import Mathlib

/-!
Verification development for the snarc reference-tracking smart pointer.

The repository contains two implementations of the same design:

* `src/main.rs` — a hand-rolled prototype: a leaked `Holder` cell with a
  `MetaData { strong_refs, weak_refs, id_counter }` behind a mutex, and raw
  `Strong`/`Weak` handles.  Modelled below by `HolderState` and the
  `create_strong_ref` / `create_weak_ref` / `drop_strong_ref` /
  `drop_weak_ref` operations.
* `src/lib.rs` — the library proper: `Snarc<T>` / `Weak<T>` wrapping
  `Arc<Inner<T>>` where `Inner { map : Mutex<Map>, data : T }` and
  `Map { strongs, weaks, next_id }`.  Modelled below by `LibState` and the
  `clone_at_site` / `downgrade_at_site` / `upgrade_at_site` /
  `weak_clone_at_site` / `drop_snarc` / `drop_weak` operations, with the
  standard-library `Arc` represented by its counts: the value and the map
  (one `Inner`) are destroyed together when the strong count reaches zero,
  and the allocation is returned when both counts are zero.
* `src/tracing.rs` — the `Site` / `Origin` provenance types and their
  `Display` instances, modelled by `Site.render` and `Origin.render`.

All state is explicit; code that may panic returns `ExecResult`.
-/

/-- Result of running Rust code that may panic (`expect`, `assert!`,
`unimplemented!`). -/
inductive ExecResult (α : Type) where
  | ok : α → ExecResult α
  | panic : String → ExecResult α
deriving DecidableEq

/-- Call site (tracing.rs `Site`): a file/line pair, an unknown marker, or a
free-text annotation. -/
inductive Site where
  | sourceFile (file : String) (line : Nat)
  | unknown
  | annotated (s : String)
deriving DecidableEq

/-- Display for `Site` (tracing.rs lines 28-36): `file:line`, `?`, or the
annotation in double quotes. -/
def Site.render : Site → String
  | Site.sourceFile file line => file ++ ":" ++ toString line
  | Site.unknown => "?"
  | Site.annotated s => "\"" ++ s ++ "\""

/-- Origin chain (tracing.rs `Origin` with `OriginKind` fused into the
constructors: `New`, `Cloned`, `Upgraded` and `Downgraded` carry the boxed
parent origin; every node also carries its `site` and `id` fields). -/
inductive Origin where
  | new (site : Site) (id : Nat)
  | cloned (parent : Origin) (site : Site) (id : Nat)
  | upgraded (parent : Origin) (site : Site) (id : Nat)
  | downgraded (parent : Origin) (site : Site) (id : Nat)
deriving DecidableEq

/-- One rendered chain segment, as written by tracing.rs lines 71-86. -/
def segText (kind : String) (id : Nat) (site : Site) : String :=
  kind ++ "<" ++ toString id ++ ">[" ++ Site.render site ++ "]"

/-- Display for `Origin` (tracing.rs lines 65-96): the while loop prints the
handle's own link first and joins successive links with a left arrow. -/
def Origin.render : Origin → String
  | Origin.new site id => segText "new" id site
  | Origin.cloned p site id => segText "clone" id site ++ " <- " ++ Origin.render p
  | Origin.upgraded p site id => segText "upgrade" id site ++ " <- " ++ Origin.render p
  | Origin.downgraded p site id => segText "downgrade" id site ++ " <- " ++ Origin.render p

/-- Specification-side view of a chain: the list of segments, the handle's own
link first, ending at the creation link. -/
def Origin.segments : Origin → List String
  | Origin.new site id => [segText "new" id site]
  | Origin.cloned p site id => segText "clone" id site :: Origin.segments p
  | Origin.upgraded p site id => segText "upgrade" id site :: Origin.segments p
  | Origin.downgraded p site id => segText "downgrade" id site :: Origin.segments p

/-- Id recorded at the creation node of a chain. -/
def Origin.rootId : Origin → Nat
  | Origin.new _ id => id
  | Origin.cloned p _ _ => Origin.rootId p
  | Origin.upgraded p _ _ => Origin.rootId p
  | Origin.downgraded p _ _ => Origin.rootId p

/-- Site recorded at the creation node of a chain. -/
def Origin.rootSite : Origin → Site
  | Origin.new site _ => site
  | Origin.cloned p _ _ => Origin.rootSite p
  | Origin.upgraded p _ _ => Origin.rootSite p
  | Origin.downgraded p _ _ => Origin.rootSite p

/-- Specification-side join: segments joined by the literal separator used by
the spec's grammar. -/
def joinChain : List String → String
  | [] => ""
  | [x] => x
  | x :: y :: rest => x ++ " <- " ++ joinChain (y :: rest)

/-! ## Model of src/main.rs (`Holder`, `MetaData`) -/

/-- State of one main.rs `Holder` plus its observable lifecycle: `dataPresent`
models `data : Option<Box<T>>` being `Some`, and `freed` records whether the
`Holder` allocation itself was ever reclaimed.  The `Holder` is created with
`Box::leak` / `Box::into_raw` and no code path frees it (both drop functions
end in `FIXME: Clean up remaining memory (free holder)`), so no operation
below ever sets `freed`. -/
structure HolderState where
  dataPresent : Bool
  strong_refs : List Nat
  weak_refs : List Nat
  id_counter : Nat
  freed : Bool
deriving DecidableEq

/-- Holder::new (main.rs 70-79). -/
def holderNew : HolderState :=
  { dataPresent := true, strong_refs := [], weak_refs := [], id_counter := 0,
    freed := false }

/-- delete_from_vec (main.rs 53-67): removes the first occurrence of the item,
panics when the item is absent. -/
def delete_from_vec : List Nat → Nat → ExecResult (List Nat)
  | [], _ => ExecResult.panic "Tried to delete item from vector, but did not find it."
  | x :: xs, item =>
    if x = item then ExecResult.ok xs
    else
      match delete_from_vec xs item with
      | ExecResult.ok v => ExecResult.ok (x :: v)
      | ExecResult.panic m => ExecResult.panic m

/-- Holder::create_strong_ref (main.rs 86-102).  The source reads
`meta.id_counter` and pushes the id, but — unlike `create_weak_ref` — never
increments the counter, even though its comment says it does. -/
def create_strong_ref (h : HolderState) : ExecResult (Nat × HolderState) :=
  if h.dataPresent then
    ExecResult.ok (h.id_counter,
      { h with strong_refs := h.strong_refs ++ [h.id_counter] })
  else
    ExecResult.panic "Cannot create strong reference, data has already been dropped. This is a bug"

/-- Holder::create_weak_ref (main.rs 104-112): reads and increments the id
counter, pushes the id onto the weak list. -/
def create_weak_ref (h : HolderState) : Nat × HolderState :=
  (h.id_counter,
    { h with id_counter := h.id_counter + 1,
             weak_refs := h.weak_refs ++ [h.id_counter] })

/-- Holder::drop_strong_ref (main.rs 114-147): asserts the data is present,
removes the id from the strong list, and drops the data when the list empties.
The FIXME at line 146 means the holder allocation itself is never freed. -/
def drop_strong_ref (h : HolderState) (id : Nat) : ExecResult HolderState :=
  if h.dataPresent then
    match delete_from_vec h.strong_refs id with
    | ExecResult.ok refs =>
      if refs.isEmpty then
        ExecResult.ok { h with strong_refs := refs, dataPresent := false }
      else
        ExecResult.ok { h with strong_refs := refs }
    | ExecResult.panic m => ExecResult.panic m
  else
    ExecResult.panic "Tried dropping a strong ref, even though the data has already been dropped."

/-- Holder::drop_weak_ref (main.rs 149-155): removes the id from the weak
list; the FIXME at line 154 means the holder is never freed here either. -/
def drop_weak_ref (h : HolderState) (id : Nat) : ExecResult HolderState :=
  match delete_from_vec h.weak_refs id with
  | ExecResult.ok refs => ExecResult.ok { h with weak_refs := refs }
  | ExecResult.panic m => ExecResult.panic m

/-- Strong::new (main.rs 158-170) followed by dropping that sole strong handle
(main.rs 222-226): after this step both id sets are empty and no handle
remains, the point at which the spec requires the Holder to be reclaimed. -/
def lastDropTrace : ExecResult HolderState :=
  match create_strong_ref holderNew with
  | ExecResult.ok (id, h) => drop_strong_ref h id
  | ExecResult.panic m => ExecResult.panic m

/-- Strong::new followed by Strong::clone (main.rs 158-208): the pair of ids
handed to the two strong handles. -/
def newThenCloneIds : ExecResult (Nat × Nat) :=
  match create_strong_ref holderNew with
  | ExecResult.ok (i1, h1) =>
    match create_strong_ref h1 with
    | ExecResult.ok (i2, _) => ExecResult.ok (i1, i2)
    | ExecResult.panic m => ExecResult.panic m
  | ExecResult.panic m => ExecResult.panic m

/-! ## Model of src/lib.rs (`Snarc`, `Weak`, `Map`, `Inner`) -/

/-- lib.rs `Map` (lines 57-80): the two HashMaps are association lists; every
insertion in the source uses the fresh key returned by `next_id`, so consing
the new pair is faithful to `HashMap::insert`. -/
structure SMap where
  strongs : List (Nat × Origin)
  weaks : List (Nat × Origin)
  nextId : Nat
deriving DecidableEq

/-- Keys of an association list. -/
def keys (m : List (Nat × Origin)) : List Nat := m.map Prod.fst

/-- HashMap::get on an association list. -/
def alookup : List (Nat × Origin) → Nat → Option Origin
  | [], _ => none
  | (k, v) :: rest, key => if k = key then some v else alookup rest key

/-- HashMap::remove on an association list; `none` when the key is absent
(the callers' `.expect` then panics). -/
def aremove : List (Nat × Origin) → Nat → Option (List (Nat × Origin))
  | [], _ => none
  | (k, v) :: rest, key =>
    if k = key then some rest
    else
      match aremove rest key with
      | some m => some ((k, v) :: m)
      | none => none

/-- Global state of one lib.rs Snarc family.  `innerAlive` models the `Arc`
strong count being positive, i.e. `Inner { map, data }` — the value AND the
lineage map together — not yet dropped; `arcStrong` / `arcWeak` are the `Arc`
counts (one per live `Snarc` / `Weak` handle); `strongHandles` holds the `id`
field of every live `Snarc`, `weakHandles` the `id : Option<Uid>` field of
every live `Weak`; `allocFreed` models the `ArcInner` allocation being
returned once both counts are zero; `destroyCount` counts how many times the
owned value has been destroyed. -/
structure LibState where
  innerAlive : Bool
  arcStrong : Nat
  arcWeak : Nat
  map : SMap
  strongHandles : List Nat
  weakHandles : List (Option Nat)
  allocFreed : Bool
  destroyCount : Nat
deriving DecidableEq

/-- Snarc::new_at_site (lib.rs 122-141): fresh map, id 0, a `New` origin in
the strong sub-map, one `Arc`. -/
def libNew (site : Site) : LibState :=
  { innerAlive := true, arcStrong := 1, arcWeak := 0,
    map := { strongs := [(0, Origin.new site 0)], weaks := [], nextId := 1 },
    strongHandles := [0], weakHandles := [],
    allocFreed := false, destroyCount := 0 }

/-- Snarc::clone_at_site (lib.rs 182-201): looks up the parent origin by the
handle's id (expect on failure), draws a fresh id, inserts a `Cloned` origin
into the strong sub-map, and clones the `Arc`. -/
def clone_at_site (s : LibState) (h : Nat) (site : Site) :
    ExecResult (Nat × LibState) :=
  match alookup s.map.strongs h with
  | none => ExecResult.panic "Internal consistency error (clone). This should never happen."
  | some parent =>
    ExecResult.ok (s.map.nextId,
      { s with
        arcStrong := s.arcStrong + 1,
        map := { strongs := (s.map.nextId, Origin.cloned parent site s.map.nextId) :: s.map.strongs,
                 weaks := s.map.weaks, nextId := s.map.nextId + 1 },
        strongHandles := s.map.nextId :: s.strongHandles })

/-- Snarc::downgrade_at_site (lib.rs 207-227): looks up the strong parent,
draws a fresh id, inserts a `Downgraded` origin into the weak sub-map, and
takes an `Arc` weak reference. -/
def downgrade_at_site (s : LibState) (h : Nat) (site : Site) :
    ExecResult (Nat × LibState) :=
  match alookup s.map.strongs h with
  | none => ExecResult.panic "Internal consistency error (downgrade). This should never happen."
  | some prev =>
    ExecResult.ok (s.map.nextId,
      { s with
        arcWeak := s.arcWeak + 1,
        map := { strongs := s.map.strongs,
                 weaks := (s.map.nextId, Origin.downgraded prev site s.map.nextId) :: s.map.weaks,
                 nextId := s.map.nextId + 1 },
        weakHandles := some s.map.nextId :: s.weakHandles })

/-- Weak::upgrade_at_site (lib.rs 359-381): `self.id?` first returns `none`
for an id-less weak; otherwise `ArcWeak::upgrade` succeeds exactly when the
strong count is positive, in which case the weak parent origin is looked up
(expect on failure), a fresh id drawn, and an `Upgraded` origin inserted into
the strong sub-map. -/
def upgrade_at_site (s : LibState) (w : Option Nat) (site : Site) :
    ExecResult (Option Nat × LibState) :=
  match w with
  | none => ExecResult.ok (none, s)
  | some id =>
    if s.arcStrong = 0 then ExecResult.ok (none, s)
    else
      match alookup s.map.weaks id with
      | none => ExecResult.panic "Internal consistency error (upgrade)"
      | some prev =>
        ExecResult.ok (some s.map.nextId,
          { s with
            arcStrong := s.arcStrong + 1,
            map := { strongs := (s.map.nextId, Origin.upgraded prev site s.map.nextId) :: s.map.strongs,
                     weaks := s.map.weaks, nextId := s.map.nextId + 1 },
            strongHandles := s.map.nextId :: s.strongHandles })

/-- Weak::clone_at_site (lib.rs 387-431): tries a temporary upgrade.  If the
value is still alive the weak parent origin is looked up (the id must be
present, two expects) and a `Cloned` origin inserted into the weak sub-map;
if the value is already gone the clone is handed out with no id. -/
def weak_clone_at_site (s : LibState) (w : Option Nat) (site : Site) :
    ExecResult (Option Nat × LibState) :=
  if s.arcStrong = 0 then
    ExecResult.ok (none,
      { s with arcWeak := s.arcWeak + 1, weakHandles := none :: s.weakHandles })
  else
    match w with
    | none => ExecResult.panic "Succesfully upgraded a weak reference, but it has no ID. This should never happen."
    | some ourId =>
      match alookup s.map.weaks ourId with
      | none => ExecResult.panic "Internal consistency error (weak clone). This should never happen."
      | some parent =>
        ExecResult.ok (some s.map.nextId,
          { s with
            arcWeak := s.arcWeak + 1,
            map := { strongs := s.map.strongs,
                     weaks := (s.map.nextId, Origin.cloned parent site s.map.nextId) :: s.map.weaks,
                     nextId := s.map.nextId + 1 },
            weakHandles := some s.map.nextId :: s.weakHandles })

/-- Drop for Snarc (lib.rs 326-333) plus the `Arc` semantics of dropping the
wrapped strong reference: the handle's id is removed from the strong sub-map
(expect on failure); then the `Arc` strong count drops, and if it reaches
zero the whole `Inner` — value and lineage map — is destroyed (the maps cease
to exist), and the allocation is returned if the weak count is already
zero. -/
def drop_snarc (s : LibState) (h : Nat) : ExecResult LibState :=
  match aremove s.map.strongs h with
  | none => ExecResult.panic "Internal consistency error (drop)"
  | some strongs' =>
    if s.arcStrong - 1 = 0 then
      ExecResult.ok
        { innerAlive := false, arcStrong := 0, arcWeak := s.arcWeak,
          map := { strongs := [], weaks := [], nextId := 0 },
          strongHandles := s.strongHandles.erase h,
          weakHandles := s.weakHandles,
          allocFreed := decide (s.arcWeak = 0),
          destroyCount := s.destroyCount + 1 }
    else
      ExecResult.ok
        { s with
          arcStrong := s.arcStrong - 1,
          map := { strongs := strongs', weaks := s.map.weaks, nextId := s.map.nextId },
          strongHandles := s.strongHandles.erase h }

/-- Drop for Weak (lib.rs 450-463) plus `Arc` semantics: when the value is
still alive (temporary upgrade succeeds) the id — which must be present, two
expects — is removed from the weak sub-map; in either case the weak count
drops, and when both counts are zero the allocation is returned. -/
def drop_weak (s : LibState) (w : Option Nat) : ExecResult LibState :=
  if s.arcStrong = 0 then
    ExecResult.ok
      { s with arcWeak := s.arcWeak - 1,
               weakHandles := s.weakHandles.erase w,
               allocFreed := decide (s.arcWeak - 1 = 0) }
  else
    match w with
    | none => ExecResult.panic "No ID on alive weak reference in drop. This is a bug."
    | some id =>
      match aremove s.map.weaks id with
      | none => ExecResult.panic "Internal consistency error (drop). This is a bug."
      | some weaks' =>
        ExecResult.ok
          { s with arcWeak := s.arcWeak - 1,
                   map := { strongs := s.map.strongs, weaks := weaks',
                            nextId := s.map.nextId },
                   weakHandles := s.weakHandles.erase (some id) }

/-- Snarc::family (lib.rs 294-305): a snapshot of all strong and weak origins
currently in the lineage map. -/
def family (s : LibState) : List Origin × List Origin :=
  (s.map.strongs.map Prod.snd, s.map.weaks.map Prod.snd)

/-- Snarc::strong_count (lib.rs 254-259): the underlying `Arc` strong count. -/
def strong_count (s : LibState) : Nat := s.arcStrong

/-- Snarc::try_unwrap (lib.rs 155-174): the entire intended body is commented
out and the function is `unimplemented!()`, which panics unconditionally. -/
def try_unwrap (_this : LibState × Nat) : ExecResult Unit :=
  ExecResult.panic "not implemented"

/-- Snarc::make_mut (lib.rs 308-315): the body is `unimplemented!()`, which
panics unconditionally. -/
def make_mut (_this : LibState × Nat) : ExecResult Unit :=
  ExecResult.panic "not implemented"

/-- Reachable states of one lib.rs Snarc family: any sequence of handle
operations, each invoked through a live handle and completing without a
panic. -/
inductive Reachable : LibState → Prop where
  | init (site : Site) : Reachable (libNew site)
  | clone (s : LibState) (h : Nat) (site : Site) (i : Nat) (s' : LibState) :
      Reachable s → h ∈ s.strongHandles →
      clone_at_site s h site = ExecResult.ok (i, s') → Reachable s'
  | downgrade (s : LibState) (h : Nat) (site : Site) (i : Nat) (s' : LibState) :
      Reachable s → h ∈ s.strongHandles →
      downgrade_at_site s h site = ExecResult.ok (i, s') → Reachable s'
  | upgrade (s : LibState) (w : Option Nat) (site : Site) (r : Option Nat) (s' : LibState) :
      Reachable s → w ∈ s.weakHandles →
      upgrade_at_site s w site = ExecResult.ok (r, s') → Reachable s'
  | weakClone (s : LibState) (w : Option Nat) (site : Site) (r : Option Nat) (s' : LibState) :
      Reachable s → w ∈ s.weakHandles →
      weak_clone_at_site s w site = ExecResult.ok (r, s') → Reachable s'
  | dropStrong (s : LibState) (h : Nat) (s' : LibState) :
      Reachable s → h ∈ s.strongHandles →
      drop_snarc s h = ExecResult.ok s' → Reachable s'
  | dropWeak (s : LibState) (w : Option Nat) (s' : LibState) :
      Reachable s → w ∈ s.weakHandles →
      drop_weak s w = ExecResult.ok s' → Reachable s'

/-- Consistency invariant tying the lineage map to the live handles and the
`Arc` counts. -/
structure StInv (s : LibState) : Prop where
  strongCount : s.arcStrong = s.strongHandles.length
  weakCount : s.arcWeak = s.weakHandles.length
  strongNodup : (keys s.map.strongs).Nodup
  weakNodup : (keys s.map.weaks).Nodup
  strongLt : ∀ k ∈ keys s.map.strongs, k < s.map.nextId
  weakLt : ∀ k ∈ keys s.map.weaks, k < s.map.nextId
  aliveIff : s.innerAlive = true ↔ s.strongHandles ≠ []
  strongPerm : (keys s.map.strongs).Perm s.strongHandles
  weakSome : s.innerAlive = true → ∀ w ∈ s.weakHandles, w.isSome
  weakPerm : s.innerAlive = true → ((keys s.map.weaks).map Option.some).Perm s.weakHandles
  deadWeaks : s.innerAlive = false → s.map.weaks = []
  freedCounts : s.allocFreed = true → s.arcStrong = 0 ∧ s.arcWeak = 0

/-- Claim-side statement of the map/handle bijection: the ids recorded in the
strong sub-map are exactly (with multiplicity) the ids of the live strong
handles, and likewise for the weak side. -/
def handleBijection (s : LibState) : Prop :=
  (keys s.map.strongs).Perm s.strongHandles ∧
  ((keys s.map.weaks).map Option.some).Perm s.weakHandles

instance (s : LibState) : Decidable (handleBijection s) := by
  unfold handleBijection; infer_instance

/-- Extract the state from a handle-producing operation, with a default for
the (unreachable) panic case. -/
def getOkPair (r : ExecResult (Nat × LibState)) (d : LibState) : LibState :=
  match r with
  | ExecResult.ok (_, s) => s
  | ExecResult.panic _ => d

/-- Extract the state from a drop operation, with a default for the
(unreachable) panic case. -/
def getOkState (r : ExecResult LibState) (d : LibState) : LibState :=
  match r with
  | ExecResult.ok s => s
  | ExecResult.panic _ => d

/-- Concrete reachable state: one fresh Snarc (strong id 0). -/
def sNew : LibState := libNew Site.unknown

/-- Concrete reachable state: after also downgrading handle 0 (weak id 1). -/
def sDown : LibState := getOkPair (downgrade_at_site sNew 0 Site.unknown) sNew

/-- Concrete reachable state: after additionally dropping strong handle 0.
The value and the lineage map are gone, weak handle 1 is still live. -/
def sDead : LibState := getOkState (drop_snarc sDown 0) sDown

/-- N clones of the original handle: `libNew` followed by `n` calls of
`clone_at_site` on handle 0 (the panic branch is unreachable, see
`cloneN_spec`). -/
def cloneN (site : Site) : Nat → LibState
  | 0 => libNew site
  | n + 1 =>
    match clone_at_site (cloneN site n) 0 site with
    | ExecResult.ok (_, s') => s'
    | ExecResult.panic _ => cloneN site n

/-- Drop the strong handles listed, left to right, propagating any panic. -/
def dropList : LibState → List Nat → ExecResult LibState
  | s, [] => ExecResult.ok s
  | s, h :: rest =>
    match drop_snarc s h with
    | ExecResult.ok s' => dropList s' rest
    | ExecResult.panic m => ExecResult.panic m

/-! ## Association-list lemmas -/

theorem keys_cons (k : Nat) (v : Origin) (m : List (Nat × Origin)) :
    keys ((k, v) :: m) = k :: keys m := rfl

theorem alookup_isSome_of_mem : ∀ (m : List (Nat × Origin)) (k : Nat),
    k ∈ keys m → ∃ v, alookup m k = some v
  | [], k, hk => by simp [keys] at hk
  | (k', v) :: rest, k, hk => by
      rw [keys_cons] at hk
      by_cases h : k' = k
      · exact ⟨v, by simp [alookup, h]⟩
      · have hk' : k ∈ keys rest := by
          cases List.mem_cons.mp hk with
          | inl h1 => exact absurd h1.symm h
          | inr h1 => exact h1
        obtain ⟨w, hw⟩ := alookup_isSome_of_mem rest k hk'
        exact ⟨w, by simp [alookup, h, hw]⟩

theorem aremove_of_mem : ∀ (m : List (Nat × Origin)) (k : Nat),
    k ∈ keys m → ∃ m', aremove m k = some m'
  | [], k, hk => by simp [keys] at hk
  | (k', v) :: rest, k, hk => by
      rw [keys_cons] at hk
      by_cases h : k' = k
      · exact ⟨rest, by simp [aremove, h]⟩
      · have hk' : k ∈ keys rest := by
          cases List.mem_cons.mp hk with
          | inl h1 => exact absurd h1.symm h
          | inr h1 => exact h1
        obtain ⟨m', hm'⟩ := aremove_of_mem rest k hk'
        exact ⟨(k', v) :: m', by simp [aremove, h, hm']⟩

theorem aremove_keys : ∀ (m m' : List (Nat × Origin)) (k : Nat),
    aremove m k = some m' → keys m' = (keys m).erase k
  | [], m', k, h => by simp [aremove] at h
  | (k', v) :: rest, m', k, h => by
      by_cases hk : k' = k
      · subst hk
        simp only [aremove, eq_self_iff_true, if_true, Option.some.injEq] at h
        subst h
        rw [keys_cons, List.erase_cons_head]
      · cases hrec : aremove rest k with
        | none => simp [aremove, hk, hrec] at h
        | some m2 =>
            simp only [aremove, if_neg hk, hrec, Option.some.injEq] at h
            subst h
            rw [keys_cons, keys_cons, List.erase_cons_tail, aremove_keys rest m2 k hrec]
            simp [hk]

/-! ## Origin rendering (tracing.rs) -/

theorem segments_ne_nil (o : Origin) : Origin.segments o ≠ [] := by
  cases o <;> simp [Origin.segments]

theorem getLast?_cons_of_ne_nil (a : String) (l : List String) (h : l ≠ []) :
    (a :: l).getLast? = l.getLast? := by
  cases l with
  | nil => exact absurd rfl h
  | cons y rest => rfl

theorem render_eq_join (o : Origin) :
    Origin.render o = joinChain (Origin.segments o) := by
  induction o with
  | new site id => rfl
  | cloned p site id ih =>
      obtain ⟨y, rest, hy⟩ := List.exists_cons_of_ne_nil (segments_ne_nil p)
      rw [hy] at ih
      simp only [Origin.render, Origin.segments, hy, joinChain, ih]
  | upgraded p site id ih =>
      obtain ⟨y, rest, hy⟩ := List.exists_cons_of_ne_nil (segments_ne_nil p)
      rw [hy] at ih
      simp only [Origin.render, Origin.segments, hy, joinChain, ih]
  | downgraded p site id ih =>
      obtain ⟨y, rest, hy⟩ := List.exists_cons_of_ne_nil (segments_ne_nil p)
      rw [hy] at ih
      simp only [Origin.render, Origin.segments, hy, joinChain, ih]

theorem segments_getLast (o : Origin) :
    (Origin.segments o).getLast? = some (segText "new" o.rootId o.rootSite) := by
  induction o with
  | new site id => rfl
  | cloned p site id ih =>
      simp only [Origin.segments, Origin.rootId, Origin.rootSite]
      rw [getLast?_cons_of_ne_nil _ _ (segments_ne_nil p)]
      exact ih
  | upgraded p site id ih =>
      simp only [Origin.segments, Origin.rootId, Origin.rootSite]
      rw [getLast?_cons_of_ne_nil _ _ (segments_ne_nil p)]
      exact ih
  | downgraded p site id ih =>
      simp only [Origin.segments, Origin.rootId, Origin.rootSite]
      rw [getLast?_cons_of_ne_nil _ _ (segments_ne_nil p)]
      exact ih

/-- C7: the rendered text of every Origin chain is the list of segments
`kind<id>[site]` (kind drawn from new / clone / upgrade / downgrade, site
rendered as file:line, `?`, or the quoted annotation — see `segText` and
`Site.render`), joined by the left arrow separator starting from the handle's
own link, and the right-most segment is always the `new<id>[site]` segment of
the creation node. -/
theorem origin_chain_render (o : Origin) :
    Origin.render o = joinChain (Origin.segments o) ∧
    (Origin.segments o).getLast? = some (segText "new" o.rootId o.rootSite) :=
  ⟨render_eq_join o, segments_getLast o⟩

/-! ## main.rs claims -/

/-- C1: evaluation of main.rs at the failing input.  After `Strong::new`
followed by dropping that sole handle, both id sets are empty and no handle
remains — the exact step at which the claim requires the Holder's memory to
be reclaimed — yet the Holder is not freed (`freed = false`; no operation in
main.rs ever frees it, both drop functions end in a FIXME). -/
theorem holder_not_reclaimed_at_last_drop :
    lastDropTrace = ExecResult.ok
      { dataPresent := false, strong_refs := [], weak_refs := [],
        id_counter := 0, freed := false } := rfl

/-- C2: evaluation of main.rs at the failing input.  `Strong::new` followed by
one `clone` hands the id 0 to both strong handles, because
`Holder::create_strong_ref` never increments `meta.id_counter` (contradicting
its own comment); ids are neither unique nor strictly increasing. -/
theorem strong_ids_collide : newThenCloneIds = ExecResult.ok (0, 0) := rfl

/-- C10: both optional sole-owner convenience operations of lib.rs,
`Snarc::try_unwrap` and `Snarc::make_mut`, are `unimplemented!()` stubs: on
every input they panic and never return a value. -/
theorem sole_owner_ops_unimplemented :
    (∀ t : LibState × Nat, try_unwrap t = ExecResult.panic "not implemented") ∧
    (∀ t : LibState × Nat, make_mut t = ExecResult.panic "not implemented") :=
  ⟨fun _ => rfl, fun _ => rfl⟩

/-! ## Invariant preservation for the lib.rs model -/

theorem inv_init (site : Site) : StInv (libNew site) := by
  constructor <;> simp [libNew, keys]

theorem allocFreed_false_of_strong (s : LibState) (I : StInv s) (h : Nat)
    (hmem : h ∈ s.strongHandles) : s.allocFreed = false := by
  cases hb : s.allocFreed with
  | false => rfl
  | true =>
      have h0 := (I.freedCounts hb).1
      rw [I.strongCount] at h0
      exact absurd (List.length_eq_zero.mp h0) (List.ne_nil_of_mem hmem)

theorem allocFreed_false_of_weak (s : LibState) (I : StInv s) (w : Option Nat)
    (hmem : w ∈ s.weakHandles) : s.allocFreed = false := by
  cases hb : s.allocFreed with
  | false => rfl
  | true =>
      have h0 := (I.freedCounts hb).2
      rw [I.weakCount] at h0
      exact absurd (List.length_eq_zero.mp h0) (List.ne_nil_of_mem hmem)

theorem inv_clone (s : LibState) (h : Nat) (site : Site) (i : Nat) (s' : LibState)
    (I : StInv s) (hmem : h ∈ s.strongHandles)
    (heq : clone_at_site s h site = ExecResult.ok (i, s')) : StInv s' := by
  have hk : h ∈ keys s.map.strongs := I.strongPerm.mem_iff.mpr hmem
  obtain ⟨p, hp⟩ := alookup_isSome_of_mem _ _ hk
  simp only [clone_at_site, hp, ExecResult.ok.injEq, Prod.mk.injEq] at heq
  obtain ⟨hi, hs'⟩ := heq
  subst hs'
  have halive : s.innerAlive = true := I.aliveIff.mpr (List.ne_nil_of_mem hmem)
  have hfresh : s.map.nextId ∉ keys s.map.strongs :=
    fun hc => lt_irrefl _ (I.strongLt _ hc)
  have hnf : s.allocFreed = false := allocFreed_false_of_strong s I h hmem
  constructor
  case strongCount => simp [I.strongCount]
  case weakCount => exact I.weakCount
  case strongNodup =>
      rw [keys_cons]
      exact List.nodup_cons.mpr ⟨hfresh, I.strongNodup⟩
  case weakNodup => exact I.weakNodup
  case strongLt =>
      rw [keys_cons]
      intro k hk'
      cases List.mem_cons.mp hk' with
      | inl h1 => simp [h1]
      | inr h1 => exact Nat.lt_succ_of_lt (I.strongLt k h1)
  case weakLt =>
      intro k hk'
      exact Nat.lt_succ_of_lt (I.weakLt k hk')
  case aliveIff => simp [halive]
  case strongPerm =>
      rw [keys_cons]
      exact I.strongPerm.cons _
  case weakSome => exact fun _ => I.weakSome halive
  case weakPerm => exact fun _ => I.weakPerm halive
  case deadWeaks =>
      intro hdead
      rw [halive] at hdead
      cases hdead
  case freedCounts =>
      intro hf
      rw [hnf] at hf
      cases hf

theorem inv_downgrade (s : LibState) (h : Nat) (site : Site) (i : Nat) (s' : LibState)
    (I : StInv s) (hmem : h ∈ s.strongHandles)
    (heq : downgrade_at_site s h site = ExecResult.ok (i, s')) : StInv s' := by
  have hk : h ∈ keys s.map.strongs := I.strongPerm.mem_iff.mpr hmem
  obtain ⟨p, hp⟩ := alookup_isSome_of_mem _ _ hk
  simp only [downgrade_at_site, hp, ExecResult.ok.injEq, Prod.mk.injEq] at heq
  obtain ⟨hi, hs'⟩ := heq
  subst hs'
  have halive : s.innerAlive = true := I.aliveIff.mpr (List.ne_nil_of_mem hmem)
  have hfresh : s.map.nextId ∉ keys s.map.weaks :=
    fun hc => lt_irrefl _ (I.weakLt _ hc)
  have hnf : s.allocFreed = false := allocFreed_false_of_strong s I h hmem
  constructor
  case strongCount => exact I.strongCount
  case weakCount => simp [I.weakCount]
  case strongNodup => exact I.strongNodup
  case weakNodup =>
      rw [keys_cons]
      exact List.nodup_cons.mpr ⟨hfresh, I.weakNodup⟩
  case strongLt =>
      intro k hk'
      exact Nat.lt_succ_of_lt (I.strongLt k hk')
  case weakLt =>
      rw [keys_cons]
      intro k hk'
      cases List.mem_cons.mp hk' with
      | inl h1 => simp [h1]
      | inr h1 => exact Nat.lt_succ_of_lt (I.weakLt k h1)
  case aliveIff => simpa [halive] using I.aliveIff.mp halive
  case strongPerm => exact I.strongPerm
  case weakSome =>
      intro _ w hw
      cases List.mem_cons.mp hw with
      | inl h1 => simp [h1]
      | inr h1 => exact I.weakSome halive w h1
  case weakPerm =>
      intro _
      rw [keys_cons, List.map_cons]
      exact (I.weakPerm halive).cons _
  case deadWeaks =>
      intro hdead
      rw [halive] at hdead
      cases hdead
  case freedCounts =>
      intro hf
      rw [hnf] at hf
      cases hf

theorem dead_of_arcStrong_zero (s : LibState) (I : StInv s)
    (hz : s.arcStrong = 0) : s.innerAlive = false ∧ s.strongHandles = [] := by
  have h0 : s.strongHandles = [] :=
    List.length_eq_zero.mp (by rw [← I.strongCount]; exact hz)
  refine ⟨?_, h0⟩
  cases hb : s.innerAlive with
  | false => rfl
  | true => exact absurd (I.aliveIff.mp hb) (by simp [h0])

theorem alive_of_arcStrong_ne_zero (s : LibState) (I : StInv s)
    (hz : ¬ s.arcStrong = 0) : s.innerAlive = true := by
  refine I.aliveIff.mpr ?_
  intro hnil
  rw [I.strongCount, hnil] at hz
  exact hz rfl

theorem mem_weak_keys (s : LibState) (I : StInv s) (halive : s.innerAlive = true)
    (id : Nat) (hmem : some id ∈ s.weakHandles) : id ∈ keys s.map.weaks := by
  have h1 := (I.weakPerm halive).mem_iff.mpr hmem
  simp only [List.mem_map, Option.some.injEq] at h1
  obtain ⟨a, ha, rfl⟩ := h1
  exact ha

theorem inv_upgrade (s : LibState) (w : Option Nat) (site : Site) (r : Option Nat)
    (s' : LibState) (I : StInv s) (hmem : w ∈ s.weakHandles)
    (heq : upgrade_at_site s w site = ExecResult.ok (r, s')) : StInv s' := by
  cases w with
  | none =>
      simp only [upgrade_at_site, ExecResult.ok.injEq, Prod.mk.injEq] at heq
      obtain ⟨_, hs'⟩ := heq
      subst hs'
      exact I
  | some id =>
      by_cases hz : s.arcStrong = 0
      · simp only [upgrade_at_site, if_pos hz, ExecResult.ok.injEq, Prod.mk.injEq] at heq
        obtain ⟨_, hs'⟩ := heq
        subst hs'
        exact I
      · have halive : s.innerAlive = true := alive_of_arcStrong_ne_zero s I hz
        have hkw : id ∈ keys s.map.weaks := mem_weak_keys s I halive id hmem
        obtain ⟨p, hp⟩ := alookup_isSome_of_mem _ _ hkw
        simp only [upgrade_at_site, if_neg hz, hp, ExecResult.ok.injEq,
          Prod.mk.injEq] at heq
        obtain ⟨hr, hs'⟩ := heq
        subst hs'
        have hfresh : s.map.nextId ∉ keys s.map.strongs :=
          fun hc => lt_irrefl _ (I.strongLt _ hc)
        have hnf : s.allocFreed = false := allocFreed_false_of_weak s I _ hmem
        constructor
        · simp [I.strongCount]
        · exact I.weakCount
        ·
            rw [keys_cons]
            exact List.nodup_cons.mpr ⟨hfresh, I.strongNodup⟩
        · exact I.weakNodup
        ·
            rw [keys_cons]
            intro k hk'
            cases List.mem_cons.mp hk' with
            | inl h1 => simp [h1]
            | inr h1 => exact Nat.lt_succ_of_lt (I.strongLt k h1)
        ·
            intro k hk'
            exact Nat.lt_succ_of_lt (I.weakLt k hk')
        · simp [halive]
        ·
            rw [keys_cons]
            exact I.strongPerm.cons _
        · exact fun _ => I.weakSome halive
        · exact fun _ => I.weakPerm halive
        ·
            intro hdead
            rw [halive] at hdead
            cases hdead
        ·
            intro hf
            rw [hnf] at hf
            cases hf

theorem inv_weakClone (s : LibState) (w : Option Nat) (site : Site) (r : Option Nat)
    (s' : LibState) (I : StInv s) (hmem : w ∈ s.weakHandles)
    (heq : weak_clone_at_site s w site = ExecResult.ok (r, s')) : StInv s' := by
  by_cases hz : s.arcStrong = 0
  · simp only [weak_clone_at_site, if_pos hz, ExecResult.ok.injEq, Prod.mk.injEq] at heq
    obtain ⟨hr, hs'⟩ := heq
    subst hs'
    obtain ⟨hdead, h0⟩ := dead_of_arcStrong_zero s I hz
    have hnf : s.allocFreed = false := allocFreed_false_of_weak s I _ hmem
    constructor
    · exact I.strongCount
    · simp [I.weakCount]
    · exact I.strongNodup
    · exact I.weakNodup
    · exact I.strongLt
    · exact I.weakLt
    · simp [hdead, h0]
    · exact I.strongPerm
    ·
        intro hc
        rw [hdead] at hc
        cases hc
    ·
        intro hc
        rw [hdead] at hc
        cases hc
    · exact fun _ => I.deadWeaks hdead
    ·
        intro hf
        rw [hnf] at hf
        cases hf
  · have halive : s.innerAlive = true := alive_of_arcStrong_ne_zero s I hz
    cases w with
    | none =>
        have := I.weakSome halive none hmem
        simp at this
    | some ourId =>
        have hkw : ourId ∈ keys s.map.weaks := mem_weak_keys s I halive ourId hmem
        obtain ⟨p, hp⟩ := alookup_isSome_of_mem _ _ hkw
        simp only [weak_clone_at_site, if_neg hz, hp, ExecResult.ok.injEq,
          Prod.mk.injEq] at heq
        obtain ⟨hr, hs'⟩ := heq
        subst hs'
        have hfresh : s.map.nextId ∉ keys s.map.weaks :=
          fun hc => lt_irrefl _ (I.weakLt _ hc)
        have hnf : s.allocFreed = false := allocFreed_false_of_weak s I _ hmem
        constructor
        · exact I.strongCount
        · simp [I.weakCount]
        · exact I.strongNodup
        ·
            rw [keys_cons]
            exact List.nodup_cons.mpr ⟨hfresh, I.weakNodup⟩
        ·
            intro k hk'
            exact Nat.lt_succ_of_lt (I.strongLt k hk')
        ·
            rw [keys_cons]
            intro k hk'
            cases List.mem_cons.mp hk' with
            | inl h1 => simp [h1]
            | inr h1 => exact Nat.lt_succ_of_lt (I.weakLt k h1)
        · simpa [halive] using I.aliveIff.mp halive
        · exact I.strongPerm
        ·
            intro _ w' hw'
            cases List.mem_cons.mp hw' with
            | inl h1 => simp [h1]
            | inr h1 => exact I.weakSome halive w' h1
        ·
            intro _
            rw [keys_cons, List.map_cons]
            exact (I.weakPerm halive).cons _
        ·
            intro hdead
            rw [halive] at hdead
            cases hdead
        ·
            intro hf
            rw [hnf] at hf
            cases hf

theorem inv_dropStrong (s : LibState) (h : Nat) (s' : LibState)
    (I : StInv s) (hmem : h ∈ s.strongHandles)
    (heq : drop_snarc s h = ExecResult.ok s') : StInv s' := by
  have hk : h ∈ keys s.map.strongs := I.strongPerm.mem_iff.mpr hmem
  obtain ⟨m', hm'⟩ := aremove_of_mem _ _ hk
  have hkeys : keys m' = (keys s.map.strongs).erase h := aremove_keys _ _ _ hm'
  have hlen : s.arcStrong = s.strongHandles.length := I.strongCount
  have hpos : 0 < s.strongHandles.length :=
    List.length_pos.mpr (List.ne_nil_of_mem hmem)
  by_cases hz : s.arcStrong - 1 = 0
  · simp only [drop_snarc, hm'] at heq
    rw [if_pos hz] at heq
    simp only [ExecResult.ok.injEq] at heq
    subst heq
    have h1 : s.strongHandles.length = 1 := by omega
    have hel : (s.strongHandles.erase h).length = 0 := by
      rw [List.length_erase_of_mem hmem, h1]
    have herase : s.strongHandles.erase h = [] := List.length_eq_zero.mp hel
    constructor
    · simp [herase]
    · exact I.weakCount
    · simp [keys]
    · simp [keys]
    · simp [keys]
    · simp [keys]
    · simp [herase]
    · simp [herase, keys]
    ·
        intro hc
        cases hc
    ·
        intro hc
        cases hc
    · exact fun _ => rfl
    ·
        intro hf
        exact ⟨rfl, of_decide_eq_true hf⟩
  · simp only [drop_snarc, hm'] at heq
    rw [if_neg hz] at heq
    simp only [ExecResult.ok.injEq] at heq
    subst heq
    have halive : s.innerAlive = true := I.aliveIff.mpr (List.ne_nil_of_mem hmem)
    have hne : s.strongHandles.erase h ≠ [] := by
      intro hnil
      have := List.length_erase_of_mem hmem
      rw [hnil] at this
      simp at this
      omega
    have hnf : s.allocFreed = false := allocFreed_false_of_strong s I h hmem
    constructor
    ·
        show s.arcStrong - 1 = (s.strongHandles.erase h).length
        rw [List.length_erase_of_mem hmem, hlen]
    · exact I.weakCount
    ·
        rw [hkeys]
        exact I.strongNodup.erase h
    · exact I.weakNodup
    ·
        rw [hkeys]
        intro k hk'
        exact I.strongLt k (List.erase_subset _ _ hk')
    · exact I.weakLt
    · simp [halive, hne]
    ·
        rw [hkeys]
        exact I.strongPerm.erase h
    · exact fun _ => I.weakSome halive
    · exact fun _ => I.weakPerm halive
    ·
        intro hdead
        rw [halive] at hdead
        cases hdead
    ·
        intro hf
        rw [hnf] at hf
        cases hf

theorem erase_option_eq (l : List (Option Nat)) (a : Option Nat) :
    l.erase a = @List.erase _ instBEqOfDecidableEq l a := by
  induction l with
  | nil => rfl
  | cons x t ih =>
      by_cases h : x = a
      · subst h
        simp [List.erase_cons]
      · simp [List.erase_cons, h, ih]

theorem inv_dropWeak (s : LibState) (w : Option Nat) (s' : LibState)
    (I : StInv s) (hmem : w ∈ s.weakHandles)
    (heq : drop_weak s w = ExecResult.ok s') : StInv s' := by
  by_cases hz : s.arcStrong = 0
  · simp only [drop_weak, if_pos hz, ExecResult.ok.injEq] at heq
    subst heq
    obtain ⟨hdead, h0⟩ := dead_of_arcStrong_zero s I hz
    constructor
    · exact I.strongCount
    ·
        show s.arcWeak - 1 = (s.weakHandles.erase w).length
        rw [List.length_erase_of_mem hmem, I.weakCount]
    · exact I.strongNodup
    · exact I.weakNodup
    · exact I.strongLt
    · exact I.weakLt
    ·
        rw [hdead, h0]
        simp [List.erase_nil]
    ·
        rw [h0]
        simpa [h0] using I.strongPerm
    ·
        intro hc
        rw [hdead] at hc
        cases hc
    ·
        intro hc
        rw [hdead] at hc
        cases hc
    · exact fun _ => I.deadWeaks hdead
    ·
        intro hf
        exact ⟨hz, of_decide_eq_true hf⟩
  · have halive : s.innerAlive = true := alive_of_arcStrong_ne_zero s I hz
    cases w with
    | none =>
        have := I.weakSome halive none hmem
        simp at this
    | some id =>
        have hkw : id ∈ keys s.map.weaks := mem_weak_keys s I halive id hmem
        obtain ⟨m', hm'⟩ := aremove_of_mem _ _ hkw
        have hkeys : keys m' = (keys s.map.weaks).erase id := aremove_keys _ _ _ hm'
        simp only [drop_weak, if_neg hz, hm', ExecResult.ok.injEq] at heq
        subst heq
        have hnf : s.allocFreed = false := allocFreed_false_of_weak s I _ hmem
        constructor
        · exact I.strongCount
        ·
            show s.arcWeak - 1 = (s.weakHandles.erase (some id)).length
            rw [List.length_erase_of_mem hmem, I.weakCount]
        · exact I.strongNodup
        ·
            rw [hkeys]
            exact I.weakNodup.erase id
        · exact I.strongLt
        ·
            rw [hkeys]
            intro k hk'
            exact I.weakLt k (List.erase_subset _ _ hk')
        · simpa [halive] using I.aliveIff.mp halive
        · exact I.strongPerm
        ·
            intro _ w' hw'
            exact I.weakSome halive w' (List.mem_of_mem_erase hw')
        ·
            intro _
            show ((keys m').map Option.some).Perm (s.weakHandles.erase (some id))
            rw [hkeys, List.map_erase (Option.some_injective Nat), erase_option_eq]
            exact (I.weakPerm halive).erase (some id)
        ·
            intro hdead
            rw [halive] at hdead
            cases hdead
        ·
            intro hf
            rw [hnf] at hf
            cases hf

/-- Every reachable state of the lib.rs model satisfies the consistency
invariant. -/
theorem reachable_inv (s : LibState) (hr : Reachable s) : StInv s := by
  induction hr with
  | init site => exact inv_init site
  | clone s h site i s' hr hmem heq ih => exact inv_clone s h site i s' ih hmem heq
  | downgrade s h site i s' hr hmem heq ih =>
      exact inv_downgrade s h site i s' ih hmem heq
  | upgrade s w site r s' hr hmem heq ih => exact inv_upgrade s w site r s' ih hmem heq
  | weakClone s w site r s' hr hmem heq ih =>
      exact inv_weakClone s w site r s' ih hmem heq
  | dropStrong s h s' hr hmem heq ih => exact inv_dropStrong s h s' ih hmem heq
  | dropWeak s w s' hr hmem heq ih => exact inv_dropWeak s w s' ih hmem heq

/-! ## Concrete reachable states -/

theorem reach_sNew : Reachable sNew := Reachable.init Site.unknown

theorem reach_sDown : Reachable sDown :=
  Reachable.downgrade sNew 0 Site.unknown 1 sDown reach_sNew (by decide) (by rfl)

theorem reach_sDead : Reachable sDead :=
  Reachable.dropStrong sDown 0 sDead reach_sDown (by decide) (by rfl)

/-! ## lib.rs claims -/

/-- C3 (counterexample): a concrete reachable state — new, downgrade, then
drop the sole strong handle — in which a weak handle is still live but
`Inner` (which holds the lineage map together with the value) has been
destroyed: the Draining state does NOT retain the Lineage Map in lib.rs. -/
theorem draining_loses_map_counterexample :
    Reachable sDead ∧ sDead.weakHandles ≠ [] ∧ sDead.innerAlive = false ∧
    sDead.map.weaks = [] :=
  ⟨reach_sDead, by decide, by decide, by decide⟩

/-- C3 (amended): live weak handles keep the Holder's allocation alive (it is
never freed while one exists), but not the lineage bookkeeping: whenever the
value has been destroyed, the strong and weak sub-maps have been destroyed
with it. -/
theorem weak_keeps_allocation_not_map (s : LibState) (hr : Reachable s)
    (hw : s.weakHandles ≠ []) :
    s.allocFreed = false ∧
    (s.innerAlive = false → s.map.strongs = [] ∧ s.map.weaks = []) := by
  have I := reachable_inv s hr
  constructor
  · cases hb : s.allocFreed with
    | false => rfl
    | true =>
        have h0 := (I.freedCounts hb).2
        rw [I.weakCount] at h0
        exact absurd (List.length_eq_zero.mp h0) hw
  · intro hdead
    have h0 : s.strongHandles = [] := by
      by_contra hne
      have := I.aliveIff.mpr hne
      rw [hdead] at this
      cases this
    have hkeys : keys s.map.strongs = [] := List.Perm.eq_nil (h0 ▸ I.strongPerm)
    exact ⟨List.map_eq_nil_iff.mp hkeys, I.deadWeaks hdead⟩

theorem weak_keeps_allocation_not_map_witness :
    sDead.allocFreed = false ∧
    (sDead.innerAlive = false → sDead.map.strongs = [] ∧ sDead.map.weaks = []) :=
  weak_keeps_allocation_not_map sDead reach_sDead (by decide)

/-- C4 (counterexample): in the same concrete reachable state a weak handle is
live — its id field is `some 1` — but the weak sub-map records nothing (the
map died with the value), so the claimed bijection between recorded ids and
live handles fails. -/
theorem handle_map_bijection_counterexample :
    Reachable sDead ∧ ¬ handleBijection sDead :=
  ⟨reach_sDead, by decide⟩

/-- C4 (amended): in every reachable state in which the value is still alive,
the ids recorded in the strong sub-map are exactly the ids of the live strong
handles and the ids recorded in the weak sub-map are exactly the ids of the
live weak handles (each recorded once — the key lists are duplicate-free). -/
theorem handle_map_bijection_while_alive (s : LibState) (hr : Reachable s)
    (halive : s.innerAlive = true) : handleBijection s :=
  ⟨(reachable_inv s hr).strongPerm, (reachable_inv s hr).weakPerm halive⟩

theorem handle_map_bijection_while_alive_witness : handleBijection sDown :=
  handle_map_bijection_while_alive sDown reach_sDown (by decide)

/-- C5: for every live weak handle in a reachable state, `upgrade_at_site`
never panics, and it returns a strong handle exactly when the value is still
alive at the moment of the call — `none` (an empty result, not an error)
exactly when the value is already gone. -/
theorem upgrade_some_iff_alive (s : LibState) (w : Option Nat) (site : Site)
    (hr : Reachable s) (hw : w ∈ s.weakHandles) :
    ∃ r s', upgrade_at_site s w site = ExecResult.ok (r, s') ∧
      (r.isSome ↔ s.innerAlive = true) := by
  have I := reachable_inv s hr
  cases w with
  | none =>
      have hdead : s.innerAlive = false := by
        cases hb : s.innerAlive with
        | false => rfl
        | true =>
            have := I.weakSome hb none hw
            simp at this
      exact ⟨none, s, rfl, by simp [hdead]⟩
  | some id =>
      by_cases hz : s.arcStrong = 0
      · obtain ⟨hdead, -⟩ := dead_of_arcStrong_zero s I hz
        refine ⟨none, s, ?_, by simp [hdead]⟩
        simp [upgrade_at_site, hz]
      · have halive := alive_of_arcStrong_ne_zero s I hz
        obtain ⟨p, hp⟩ := alookup_isSome_of_mem _ _ (mem_weak_keys s I halive id hw)
        refine ⟨some s.map.nextId,
          { s with
            arcStrong := s.arcStrong + 1,
            map := { strongs :=
                       (s.map.nextId, Origin.upgraded p site s.map.nextId) :: s.map.strongs,
                     weaks := s.map.weaks, nextId := s.map.nextId + 1 },
            strongHandles := s.map.nextId :: s.strongHandles },
          ?_, by simp [halive]⟩
        simp [upgrade_at_site, if_neg hz, hp]

theorem upgrade_some_iff_alive_witness :
    ∃ r s', upgrade_at_site sDown (some 1) Site.unknown = ExecResult.ok (r, s') ∧
      (r.isSome ↔ sDown.innerAlive = true) :=
  upgrade_some_iff_alive sDown (some 1) Site.unknown reach_sDown (by decide)

/-- C8: whenever a strong handle is live (so `Snarc::family` can be called),
the two origin lists returned by `family` have exactly as many entries as
there are live strong, respectively weak, handles on the Holder. -/
theorem family_counts (s : LibState) (hr : Reachable s)
    (hl : s.strongHandles ≠ []) :
    (family s).1.length = s.strongHandles.length ∧
    (family s).2.length = s.weakHandles.length := by
  have I := reachable_inv s hr
  have halive := I.aliveIff.mpr hl
  constructor
  · have h1 := I.strongPerm.length_eq
    simp only [keys, List.length_map] at h1
    simpa [family] using h1
  · have h1 := (I.weakPerm halive).length_eq
    simp only [keys, List.length_map] at h1
    simpa [family] using h1

theorem family_counts_witness :
    (family sDown).1.length = sDown.strongHandles.length ∧
    (family sDown).2.length = sDown.weakHandles.length :=
  family_counts sDown reach_sDown (by decide)

/-- C9: in every reachable state, the underlying `Arc` strong count reported
by `Snarc::strong_count` equals the number of entries in the Holder's strong
lineage sub-map (each operation moves both inside its critical section, so
they never diverge). -/
theorem strong_count_eq_strongs_size (s : LibState) (hr : Reachable s) :
    strong_count s = s.map.strongs.length := by
  have I := reachable_inv s hr
  have h1 := I.strongPerm.length_eq
  simp only [keys, List.length_map] at h1
  rw [strong_count, I.strongCount, ← h1]

theorem strong_count_eq_strongs_size_witness :
    strong_count sNew = sNew.map.strongs.length :=
  strong_count_eq_strongs_size sNew reach_sNew

/-! ## C6: N clones, then all drops, in any order -/

theorem cloneN_spec (site : Site) : ∀ n : Nat,
    (cloneN site n).innerAlive = true ∧
    (cloneN site n).destroyCount = 0 ∧
    (cloneN site n).arcStrong = n + 1 ∧
    (cloneN site n).map.nextId = n + 1 ∧
    keys (cloneN site n).map.strongs = (List.range (n + 1)).reverse
  | 0 => ⟨rfl, rfl, rfl, rfl, rfl⟩
  | n + 1 => by
      obtain ⟨ha, hd, hs, hn, hk⟩ := cloneN_spec site n
      have h0 : 0 ∈ keys (cloneN site n).map.strongs := by
        rw [hk]
        simp [List.mem_reverse, List.mem_range]
      obtain ⟨p, hp⟩ := alookup_isSome_of_mem _ _ h0
      refine ⟨?_, ?_, ?_, ?_, ?_⟩
      · simp only [cloneN, clone_at_site, hp]
        exact ha
      · simp only [cloneN, clone_at_site, hp]
        exact hd
      · simp only [cloneN, clone_at_site, hp]
        omega
      · simp only [cloneN, clone_at_site, hp]
        omega
      · simp only [cloneN, clone_at_site, hp, keys_cons, hn, hk]
        simp [List.range_succ, List.reverse_append]

theorem dropList_destroys : ∀ (l : List Nat) (s : LibState),
    s.innerAlive = true → s.destroyCount = 0 →
    s.arcStrong = l.length → (keys s.map.strongs).Perm l → l ≠ [] →
    ∃ s', dropList s l = ExecResult.ok s' ∧ s'.destroyCount = 1
  | [], _, _, _, _, _, hne => absurd rfl hne
  | h :: rest, s, ha, hd, hlen, hperm, _ => by
      have hmemk : h ∈ keys s.map.strongs :=
        hperm.mem_iff.mpr (List.mem_cons_self h rest)
      obtain ⟨m', hm'⟩ := aremove_of_mem _ _ hmemk
      have hkeys := aremove_keys _ _ _ hm'
      cases rest with
      | nil =>
          have hz : s.arcStrong - 1 = 0 := by
            rw [hlen]
            rfl
          refine ⟨{ innerAlive := false, arcStrong := 0, arcWeak := s.arcWeak,
                    map := { strongs := [], weaks := [], nextId := 0 },
                    strongHandles := s.strongHandles.erase h,
                    weakHandles := s.weakHandles,
                    allocFreed := decide (s.arcWeak = 0),
                    destroyCount := s.destroyCount + 1 }, ?_, ?_⟩
          · simp only [dropList, drop_snarc, hm']
            rw [if_pos hz]
          · simp [hd]
      | cons h2 t =>
          have hz : ¬ (s.arcStrong - 1 = 0) := by
            rw [hlen]
            simp
          have hperm' : (keys m').Perm (h2 :: t) := by
            have h1 := hperm.erase h
            rw [List.erase_cons_head] at h1
            exact hkeys ▸ h1
          have hlen' : s.arcStrong - 1 = (h2 :: t).length := by
            rw [hlen]
            rfl
          obtain ⟨s', hds, hc⟩ := dropList_destroys (h2 :: t)
            { s with
              arcStrong := s.arcStrong - 1,
              map := { strongs := m', weaks := s.map.weaks, nextId := s.map.nextId },
              strongHandles := s.strongHandles.erase h }
            ha hd hlen' hperm' (by simp)
          refine ⟨s', ?_, hc⟩
          simp only [dropList, drop_snarc, hm']
          rw [if_neg hz]
          exact hds

/-- C6: for every N, make N clones of the original strong handle and then drop
all N+1 strong handles in any order: every drop finds its own id in the strong
sub-map (no drop panics with the missing-id consistency error) and the owned
value is destroyed exactly once. -/
theorem clones_then_drops_destroy_once (site : Site) (n : Nat) (l : List Nat)
    (hperm : l.Perm (List.range (n + 1))) :
    ∃ s', dropList (cloneN site n) l = ExecResult.ok s' ∧ s'.destroyCount = 1 := by
  obtain ⟨ha, hd, hs, hn, hk⟩ := cloneN_spec site n
  refine dropList_destroys l (cloneN site n) ha hd ?_ ?_ ?_
  · rw [hs, hperm.length_eq, List.length_range]
  · rw [hk]
    exact (List.reverse_perm _).trans hperm.symm
  · intro hnil
    rw [hnil] at hperm
    have h1 := hperm.length_eq
    simp at h1

theorem clones_then_drops_destroy_once_witness :
    ∃ s', dropList (cloneN Site.unknown 1) [0, 1] = ExecResult.ok s' ∧
      s'.destroyCount = 1 :=
  clones_then_drops_destroy_once Site.unknown 1 [0, 1] (by decide)
